import Mathlib

/-!
Shallow embedding of the networked-chess program (src/main.go) and proofs
about its game-state model, move generation and wire protocol.

Conventions used by the embedding:
* The Go `[8][8]*Piece` board is modelled as a total function
  `Int → Int → Option Piece`; every board access the program performs is
  bounds-guarded, so only the values at coordinates 0..7 are ever observed.
* The Go `map[string]bool` of legal moves is keyed by `fmt.Sprintf("%d,%d", x, y)`,
  an injective encoding of the pair `(x, y)`; it is modelled as a list of
  `(x, y)` pairs queried by membership (col, row order, exactly as the keys).
* Strings on the wire are modelled as their byte lists (`List Nat`, each < 256);
  `parseMove` indexes bytes exactly like Go string indexing, with byte
  subtraction wrapping modulo 256.
* The two concurrent activities (termbox input loop and the network-reader
  goroutine of `play`) are modelled as a sequential step relation over
  interleaved events; a local click is processed only while `gameOver` is
  false, mirroring the `for !g.gameOver` loop condition, while a received
  line is parsed and applied unconditionally, mirroring the goroutine body.
-/

/-- Mirrors Go struct `Piece` (src/main.go): color is "white" or "black",
symbol is the Unicode chess rune. -/
structure Piece where
  color : String
  symbol : Char
deriving DecidableEq

/-- The `pieces` rune table of src/main.go; a missing key yields the zero
rune, as a Go map lookup would. -/
def pieces (name : String) : Char :=
  if name = "white_king" then '♔'
  else if name = "white_queen" then '♕'
  else if name = "white_rook" then '♖'
  else if name = "white_bishop" then '♗'
  else if name = "white_knight" then '♘'
  else if name = "white_pawn" then '♙'
  else if name = "black_king" then '♚'
  else if name = "black_queen" then '♛'
  else if name = "black_rook" then '♜'
  else if name = "black_bishop" then '♝'
  else if name = "black_knight" then '♞'
  else if name = "black_pawn" then '♟'
  else Char.ofNat 0

/-- The Go `[8][8]*Piece` board, as a function from (row, col). -/
abbrev Board := Int → Int → Option Piece

/-- The game-state fields of Go struct `Game` that the core logic reads or
writes (rendering-only fields such as the theme index are omitted). -/
structure Game where
  board : Board
  currentPlayer : String
  gameOver : Bool
  cursorX : Int
  cursorY : Int
  selectedX : Int
  selectedY : Int
  message : String
  legalMoves : List (Int × Int)

/-- `NewGame` of src/main.go: the standard starting position, white to move. -/
def NewGame : Game where
  board := fun y x =>
    if y = 0 then
      if x = 0 then some ⟨"black", pieces ("black_rook")⟩
      else if x = 1 then some ⟨"black", pieces ("black_knight")⟩
      else if x = 2 then some ⟨"black", pieces ("black_bishop")⟩
      else if x = 3 then some ⟨"black", pieces ("black_queen")⟩
      else if x = 4 then some ⟨"black", pieces ("black_king")⟩
      else if x = 5 then some ⟨"black", pieces ("black_bishop")⟩
      else if x = 6 then some ⟨"black", pieces ("black_knight")⟩
      else if x = 7 then some ⟨"black", pieces ("black_rook")⟩
      else none
    else if y = 1 then
      if 0 ≤ x ∧ x < 8 then some ⟨"black", pieces ("black_pawn")⟩ else none
    else if y = 6 then
      if 0 ≤ x ∧ x < 8 then some ⟨"white", pieces ("white_pawn")⟩ else none
    else if y = 7 then
      if x = 0 then some ⟨"white", pieces ("white_rook")⟩
      else if x = 1 then some ⟨"white", pieces ("white_knight")⟩
      else if x = 2 then some ⟨"white", pieces ("white_bishop")⟩
      else if x = 3 then some ⟨"white", pieces ("white_queen")⟩
      else if x = 4 then some ⟨"white", pieces ("white_king")⟩
      else if x = 5 then some ⟨"white", pieces ("white_bishop")⟩
      else if x = 6 then some ⟨"white", pieces ("white_knight")⟩
      else if x = 7 then some ⟨"white", pieces ("white_rook")⟩
      else none
    else none
  currentPlayer := "white"
  gameOver := false
  cursorX := 0
  cursorY := 0
  selectedX := -1
  selectedY := -1
  message := "Welcome! White\x27s turn. Press \x27c\x27 to change theme."
  legalMoves := []

/-- `applyMove` of src/main.go, lines 224-248.  Reads the source square,
checks the destination for a king (setting `gameOver` and a winner message),
writes the destination then clears the source, and finally switches
`currentPlayer` — unconditionally overwriting `message` with the next
player's turn message, exactly as the Go code does. -/
def applyMove (g : Game) (fromY fromX toY toX : Int) : Game :=
  let piece := g.board fromY fromX
  let kingCaptured : Bool :=
    match g.board toY toX with
    | some targetPiece =>
        targetPiece.symbol == pieces ("white_king") || targetPiece.symbol == pieces ("black_king")
    | none => false
  let gameOver1 : Bool := g.gameOver || kingCaptured
  -- the winner message written in the king-capture branch; the Go code
  -- overwrites it two statements later when it switches the player
  let message1 : String :=
    if kingCaptured then "Game Over! " ++ g.currentPlayer ++ " wins." else g.message
  let board1 : Board := fun yy xx =>
    if yy = fromY ∧ xx = fromX then none
    else if yy = toY ∧ xx = toX then piece
    else g.board yy xx
  if g.currentPlayer = "white" then
    { g with board := board1, gameOver := gameOver1, currentPlayer := "black",
             message := "Black\x27s turn." }
  else
    { g with board := board1, gameOver := gameOver1, currentPlayer := "white",
             message := "White\x27s turn." }

/-- Byte subtraction as Go performs it on string bytes (wrap modulo 256),
then widened to `int`. -/
def byteSub (a b : Nat) : Int := ((a + 256 - b) % 256 : Nat)

/-- The five return values of Go `parseMove`. -/
structure ParseResult where
  fromRow : Int
  fromCol : Int
  toRow : Int
  toCol : Int
  ok : Bool
deriving DecidableEq

/-- `parseMove` of src/main.go, lines 361-374, over the byte list of the
input string: a non-4-byte string or any decoded coordinate outside 0..7
yields `(0, 0, 0, 0, false)`. -/
def parseMove (move : List Nat) : ParseResult :=
  match move with
  | [m0, m1, m2, m3] =>
    let fromCol : Int := byteSub m0 97
    let fromRow : Int := 8 - byteSub m1 48
    let toCol : Int := byteSub m2 97
    let toRow : Int := 8 - byteSub m3 48
    if fromCol < 0 ∨ 7 < fromCol ∨ fromRow < 0 ∨ 7 < fromRow ∨
       toCol < 0 ∨ 7 < toCol ∨ toRow < 0 ∨ 7 < toRow then
      ⟨0, 0, 0, 0, false⟩
    else
      ⟨fromRow, fromCol, toRow, toCol, true⟩
  | _ => ⟨0, 0, 0, 0, false⟩

/-- The move string built in `handleMouseClick` (src/main.go line 261):
`fmt.Sprintf("%c%d%c%d", 'a'+fromX, 8-fromY, 'a'+toX, 8-toY)`. -/
def encodeMove (fromX fromY toX toY : Int) : String :=
  String.singleton (Char.ofNat (97 + fromX).toNat) ++ toString (8 - fromY) ++
    String.singleton (Char.ofNat (97 + toX).toNat) ++ toString (8 - toY)

/-- Byte list of an ASCII string (UTF-8 bytes coincide with code points
for every string the program puts on the wire). -/
def strBytes (s : String) : List Nat := s.data.map Char.toNat

/-- A destination square, in the (col, row) order of the Go map keys. -/
def inBoundsPair (mv : Int × Int) : Prop :=
  0 ≤ mv.1 ∧ mv.1 < 8 ∧ 0 ≤ mv.2 ∧ mv.2 < 8

/-- Whether the square `mv` (col, row) holds a piece of color `color`. -/
def sameColorTarget (b : Board) (color : String) (mv : Int × Int) : Bool :=
  match b mv.2 mv.1 with
  | some target => decide (target.color = color)
  | none => false

/-- Shared body of the knight/king loops of src/main.go: add the square
`(nx, ny)` when it is on the board and empty or enemy-occupied. -/
def tryAddStep (b : Board) (color : String) (ny nx : Int) : List (Int × Int) :=
  if 0 ≤ nx ∧ nx < 8 ∧ 0 ≤ ny ∧ ny < 8 then
    match b ny nx with
    | none => [(nx, ny)]
    | some target => if target.color ≠ color then [(nx, ny)] else []
  else []

/-- `addPawnMoves` of src/main.go, lines 461-487. -/
def addPawnMoves (b : Board) (y x : Int) (color : String) : List (Int × Int) :=
  let dir : Int := if color = "black" then 1 else -1
  let startRow : Int := if color = "black" then 1 else 6
  let ny := y + dir
  let forward :=
    if 0 ≤ ny ∧ ny < 8 ∧ b ny x = none then
      (x, ny) ::
        (if y = startRow then
          (let nny := y + 2 * dir
           if 0 ≤ nny ∧ nny < 8 ∧ b nny x = none then [(x, nny)] else [])
         else [])
    else []
  let captures := ([-1, 1] : List Int).foldr (fun dx acc =>
    (let nx := x + dx
     if 0 ≤ nx ∧ nx < 8 ∧ 0 ≤ ny ∧ ny < 8 then
       match b ny nx with
       | some target => if target.color ≠ color then [(nx, ny)] else []
       | none => []
     else []) ++ acc) []
  forward ++ captures

/-- The inner ray loop of `addSlidingMoves` (src/main.go lines 491-504) for
one direction `(dy, dx)`: `fuel` counts the remaining iterations of
`for d := 1; d < 8; d++`, `d` is the current distance. -/
def slideAux (b : Board) (y x : Int) (color : String) (dy dx : Int) :
    Nat → Nat → List (Int × Int)
  | 0, _ => []
  | fuel + 1, d =>
    let ny := y + (d : Int) * dy
    let nx := x + (d : Int) * dx
    if nx < 0 ∨ 8 ≤ nx ∨ ny < 0 ∨ 8 ≤ ny then []
    else
      match b ny nx with
      | some target => if target.color ≠ color then [(nx, ny)] else []
      | none => (nx, ny) :: slideAux b y x color dy dx fuel (d + 1)

/-- `addSlidingMoves` of src/main.go, lines 489-505. -/
def addSlidingMoves (b : Board) (y x : Int) (color : String)
    (yDirs xDirs : List Int) : List (Int × Int) :=
  (yDirs.zip xDirs).foldr (fun d acc => slideAux b y x color d.1 d.2 7 1 ++ acc) []

/-- `addKnightMoves` of src/main.go, lines 507-518. -/
def addKnightMoves (b : Board) (y x : Int) (color : String) : List (Int × Int) :=
  let yMoves : List Int := [-2, -2, -1, -1, 1, 1, 2, 2]
  let xMoves : List Int := [-1, 1, -2, 2, -2, 2, -1, 1]
  (yMoves.zip xMoves).foldr (fun d acc => tryAddStep b color (y + d.1) (x + d.2) ++ acc) []

/-- The 8 (dy, dx) pairs enumerated by the double loop of `addKingMoves`
(src/main.go lines 520-534), skipping (0, 0). -/
def kingOffsets : List (Int × Int) :=
  [(-1, -1), (-1, 0), (-1, 1), (0, -1), (0, 1), (1, -1), (1, 0), (1, 1)]

/-- `addKingMoves` of src/main.go, lines 520-534. -/
def addKingMoves (b : Board) (y x : Int) (color : String) : List (Int × Int) :=
  kingOffsets.foldr (fun d acc => tryAddStep b color (y + d.1) (x + d.2) ++ acc) []

/-- `calculateLegalMoves` of src/main.go, lines 436-459: dispatch on the
piece symbol; an empty square or unknown symbol yields the empty set. -/
def calculateLegalMoves (b : Board) (y x : Int) : List (Int × Int) :=
  match b y x with
  | none => []
  | some piece =>
    if piece.symbol = pieces ("white_pawn") then addPawnMoves b y x ("white")
    else if piece.symbol = pieces ("black_pawn") then addPawnMoves b y x ("black")
    else if piece.symbol = pieces ("white_rook") ∨ piece.symbol = pieces ("black_rook") then
      addSlidingMoves b y x piece.color [-1, 1, 0, 0] [0, 0, -1, 1]
    else if piece.symbol = pieces ("white_bishop") ∨ piece.symbol = pieces ("black_bishop") then
      addSlidingMoves b y x piece.color [-1, -1, 1, 1] [-1, 1, -1, 1]
    else if piece.symbol = pieces ("white_queen") ∨ piece.symbol = pieces ("black_queen") then
      addSlidingMoves b y x piece.color [-1, 1, 0, 0, -1, -1, 1, 1] [0, 0, -1, 1, -1, 1, -1, 1]
    else if piece.symbol = pieces ("white_knight") ∨ piece.symbol = pieces ("black_knight") then
      addKnightMoves b y x piece.color
    else if piece.symbol = pieces ("white_king") ∨ piece.symbol = pieces ("black_king") then
      addKingMoves b y x piece.color
    else []

/-- `handleMouseClick` of src/main.go, lines 250-283; returns the updated
state and the move string to send (empty when nothing is sent). -/
def handleMouseClick (g : Game) (playerColor : String) : Game × String :=
  let x := g.cursorX
  let y := g.cursorY
  if g.currentPlayer ≠ playerColor then
    ({ g with message := "Not your turn!" }, "")
  else if g.selectedX ≠ -1 then
    if (x, y) ∈ g.legalMoves then
      let moveStr := encodeMove g.selectedX g.selectedY x y
      let g1 := applyMove g g.selectedY g.selectedX y x
      ({ g1 with selectedX := -1, selectedY := -1, legalMoves := [] }, moveStr)
    else
      ({ g with selectedX := -1, selectedY := -1, legalMoves := [],
                message := "Move cancelled." }, "")
  else
    match g.board y x with
    | some piece =>
      if piece.color = g.currentPlayer then
        ({ g with selectedX := x, selectedY := y,
                  message := "Piece selected. Click a destination square.",
                  legalMoves := calculateLegalMoves g.board y x }, "")
      else
        ({ g with message := "Select one of your own pieces." }, "")
    | none => ({ g with message := "Select one of your own pieces." }, "")

/-- Clamping of the cursor cell coordinate to 0..7 (src/main.go lines 319-330). -/
def clampCoord (v : Int) : Int := if v < 0 then 0 else if 7 < v then 7 else v

/-- The move-relevant events the two concurrent activities of `play`
(src/main.go lines 286-342) process: a trimmed line received by the reader
goroutine, a read failure, and a left mouse click at a cell coordinate. -/
inductive GameEvent where
  | remoteLine (line : List Nat) : GameEvent
  | disconnect : GameEvent
  | localClick (mx my : Int) (playerColor : String) : GameEvent

/-- One interleaving step of `play`: the reader goroutine parses and applies
every received line unconditionally; a read failure sets `gameOver`; the
input loop handles a click only while `gameOver` is false (its
`for !g.gameOver` condition), clamping the cursor first. -/
def step (g : Game) (e : GameEvent) : Game :=
  match e with
  | GameEvent.remoteLine line =>
    let r := parseMove line
    applyMove g r.fromRow r.fromCol r.toRow r.toCol
  | GameEvent.disconnect =>
    { g with message := "Opponent disconnected.", gameOver := true }
  | GameEvent.localClick mx my playerColor =>
    if g.gameOver then g
    else
      let g1 := { g with cursorX := clampCoord mx, cursorY := clampCoord my }
      (handleMouseClick g1 playerColor).1

/-- A finite execution of the step relation from a start state. -/
def runEvents (g : Game) (es : List GameEvent) : Game := es.foldl step g

/-- The pawn-move destination set as claim C6 describes it, in the
(col, row) key order: one step forward onto an empty in-range square, the
double step from the starting rank when both squares are empty, and the
in-range forward-diagonal squares holding an opposing piece. -/
def pawnMoveChar (b : Board) (y x : Int) (color : String) (p q : Int) : Prop :=
  let dir : Int := if color = "black" then 1 else -1
  let startRow : Int := if color = "black" then 1 else 6
  (p = x ∧ q = y + dir ∧ 0 ≤ q ∧ q < 8 ∧ b q x = none) ∨
  (p = x ∧ q = y + 2 * dir ∧ y = startRow ∧
     0 ≤ y + dir ∧ y + dir < 8 ∧ b (y + dir) x = none ∧ 0 ≤ q ∧ q < 8 ∧ b q x = none) ∨
  ((p = x + -1 ∨ p = x + 1) ∧ q = y + (if color = "black" then (1 : Int) else -1) ∧
     0 ≤ p ∧ p < 8 ∧ 0 ≤ q ∧ q < 8 ∧
     ∃ target, b q p = some target ∧ target.color ≠ color)

/-- The per-ray stopping discipline claim C5 describes for the square at
distance `d` along direction `(dy, dx)`: every square of the ray up to
distance `d` is on the board, every square strictly before distance `d` is
empty, and the square at distance `d` is empty or holds an opposing piece. -/
def slidingRayChar (b : Board) (y x : Int) (color : String) (dy dx : Int) (d : Nat) : Prop :=
  (∀ e : Nat, 1 ≤ e → e ≤ d →
      0 ≤ x + (e : Int) * dx ∧ x + (e : Int) * dx < 8 ∧
      0 ≤ y + (e : Int) * dy ∧ y + (e : Int) * dy < 8) ∧
  (∀ e : Nat, 1 ≤ e → e < d → b (y + (e : Int) * dy) (x + (e : Int) * dx) = none) ∧
  (b (y + (d : Int) * dy) (x + (d : Int) * dx) = none ∨
    ∃ target, b (y + (d : Int) * dy) (x + (d : Int) * dx) = some target ∧
      target.color ≠ color)

lemma mem_pawnForward_iff (b : Board) (y x dir startRow : Int) (p q : Int) :
    ((p, q) ∈ (if 0 ≤ y + dir ∧ y + dir < 8 ∧ b (y + dir) x = none then
       (x, y + dir) ::
         (if y = startRow then
           (if 0 ≤ y + 2 * dir ∧ y + 2 * dir < 8 ∧ b (y + 2 * dir) x = none then
             [(x, y + 2 * dir)] else [])
          else [])
     else ([] : List (Int × Int)))) ↔
    ((p = x ∧ q = y + dir ∧ 0 ≤ q ∧ q < 8 ∧ b q x = none) ∨
     (p = x ∧ q = y + 2 * dir ∧ y = startRow ∧ 0 ≤ y + dir ∧ y + dir < 8 ∧
       b (y + dir) x = none ∧ 0 ≤ q ∧ q < 8 ∧ b q x = none)) := by
  split_ifs with h1 hsr h2
  · simp only [List.mem_cons, List.mem_singleton, List.not_mem_nil, or_false, Prod.mk.injEq]
    constructor
    · rintro (⟨rfl, rfl⟩ | ⟨rfl, rfl⟩)
      · exact Or.inl ⟨rfl, rfl, h1.1, h1.2.1, h1.2.2⟩
      · exact Or.inr ⟨rfl, rfl, hsr, h1.1, h1.2.1, h1.2.2, h2.1, h2.2.1, h2.2.2⟩
    · rintro (⟨rfl, rfl, -⟩ | ⟨rfl, rfl, -⟩)
      · exact Or.inl ⟨rfl, rfl⟩
      · exact Or.inr ⟨rfl, rfl⟩
  · simp only [List.mem_singleton, Prod.mk.injEq]
    constructor
    · rintro ⟨rfl, rfl⟩
      exact Or.inl ⟨rfl, rfl, h1.1, h1.2.1, h1.2.2⟩
    · rintro (⟨rfl, rfl, -⟩ | ⟨rfl, rfl, -, -, -, -, hb1, hb2, hb3⟩)
      · exact ⟨rfl, rfl⟩
      · exact absurd ⟨hb1, hb2, hb3⟩ h2
  · simp only [List.mem_singleton, Prod.mk.injEq]
    constructor
    · rintro ⟨rfl, rfl⟩
      exact Or.inl ⟨rfl, rfl, h1.1, h1.2.1, h1.2.2⟩
    · rintro (⟨rfl, rfl, -⟩ | ⟨rfl, rfl, hs, -⟩)
      · exact ⟨rfl, rfl⟩
      · exact absurd hs hsr
  · simp only [List.not_mem_nil, false_iff]
    rintro (⟨rfl, rfl, hb1, hb2, hb3⟩ | ⟨rfl, rfl, -, hb1, hb2, hb3, -⟩) <;>
      exact absurd ⟨hb1, hb2, hb3⟩ h1

lemma mem_pawnCapture_iff (b : Board) (color : String) (ny nx : Int) (p q : Int) :
    ((p, q) ∈ (if 0 ≤ nx ∧ nx < 8 ∧ 0 ≤ ny ∧ ny < 8 then
       match b ny nx with
       | some target => if target.color ≠ color then [(nx, ny)] else []
       | none => ([] : List (Int × Int))
     else [])) ↔
    (p = nx ∧ q = ny ∧ 0 ≤ nx ∧ nx < 8 ∧ 0 ≤ ny ∧ ny < 8 ∧
      ∃ target, b ny nx = some target ∧ target.color ≠ color) := by
  split_ifs with hb
  · cases hcell : b ny nx with
    | none =>
      simp [hcell]
    | some t =>
      dsimp only
      split_ifs with htc
      · simp only [List.mem_singleton, Prod.mk.injEq, hcell]
        constructor
        · rintro ⟨rfl, rfl⟩
          exact ⟨rfl, rfl, hb.1, hb.2.1, hb.2.2.1, hb.2.2.2, t, rfl, htc⟩
        · rintro ⟨rfl, rfl, -⟩
          exact ⟨rfl, rfl⟩
      · simp only [List.not_mem_nil, false_iff, hcell]
        rintro ⟨rfl, rfl, -, -, -, -, t2, ht2, htc2⟩
        cases ht2
        exact absurd htc2 htc
  · simp only [List.not_mem_nil, false_iff]
    rintro ⟨-, -, hb1, hb2, hb3, hb4, -⟩
    exact absurd ⟨hb1, hb2, hb3, hb4⟩ hb

lemma mem_addPawnMoves_iff (b : Board) (y x : Int) (color : String) (p q : Int) :
    (p, q) ∈ addPawnMoves b y x color ↔ pawnMoveChar b y x color p q := by
  unfold addPawnMoves pawnMoveChar
  dsimp only
  simp only [List.foldr_cons, List.foldr_nil, List.append_nil, List.mem_append]
  rw [mem_pawnForward_iff, mem_pawnCapture_iff, mem_pawnCapture_iff]
  constructor
  · rintro ((h | h) | h | h)
    · exact Or.inl h
    · exact Or.inr (Or.inl h)
    · obtain ⟨rfl, rfl, c1, c2, c3, c4, hex⟩ := h
      exact Or.inr (Or.inr ⟨Or.inl rfl, rfl, c1, c2, c3, c4, hex⟩)
    · obtain ⟨rfl, rfl, c1, c2, c3, c4, hex⟩ := h
      exact Or.inr (Or.inr ⟨Or.inr rfl, rfl, c1, c2, c3, c4, hex⟩)
  · rintro (h | h | ⟨(rfl | rfl), rfl, c1, c2, c3, c4, hex⟩)
    · exact Or.inl (Or.inl h)
    · exact Or.inl (Or.inr h)
    · exact Or.inr (Or.inl ⟨rfl, rfl, c1, c2, c3, c4, hex⟩)
    · exact Or.inr (Or.inr ⟨rfl, rfl, c1, c2, c3, c4, hex⟩)

lemma mem_foldr_append {α β : Type} (f : α → List β) (l : List α) (mv : β) :
    mv ∈ l.foldr (fun d acc => f d ++ acc) [] ↔ ∃ d ∈ l, mv ∈ f d := by
  induction l with
  | nil => simp
  | cons a l ih => simp [List.mem_append, ih]

lemma mem_tryAddStep (b : Board) (color : String) (ny nx : Int) (mv : Int × Int)
    (h : mv ∈ tryAddStep b color ny nx) :
    mv = (nx, ny) ∧ inBoundsPair mv ∧ sameColorTarget b color mv = false := by
  unfold tryAddStep at h
  split_ifs at h with hb
  · cases hcell : b ny nx with
    | none =>
      rw [hcell] at h
      dsimp only at h
      rw [List.mem_singleton] at h
      subst h
      exact ⟨rfl, ⟨hb.1, hb.2.1, hb.2.2.1, hb.2.2.2⟩, by simp [sameColorTarget, hcell]⟩
    | some t =>
      rw [hcell] at h
      dsimp only at h
      split_ifs at h with htc
      · rw [List.mem_singleton] at h
        subst h
        refine ⟨rfl, ⟨hb.1, hb.2.1, hb.2.2.1, hb.2.2.2⟩, ?_⟩
        simp [sameColorTarget, hcell, htc]
      · cases h
  · cases h

lemma mem_slideAux_sound (b : Board) (y x : Int) (color : String) (dy dx : Int) :
    ∀ (fuel d : Nat) (mv : Int × Int), mv ∈ slideAux b y x color dy dx fuel d →
      inBoundsPair mv ∧ sameColorTarget b color mv = false := by
  intro fuel
  induction fuel with
  | zero =>
    intro d mv h
    simp only [slideAux] at h
    cases h
  | succ fuel ih =>
    intro d mv h
    simp only [slideAux] at h
    split_ifs at h with hb
    · cases h
    · cases hcell : b (y + (d : Int) * dy) (x + (d : Int) * dx) with
      | some t =>
        rw [hcell] at h
        dsimp only at h
        split_ifs at h with htc
        · rw [List.mem_singleton] at h
          subst h
          refine ⟨⟨by omega, by omega, by omega, by omega⟩, ?_⟩
          simp [sameColorTarget, hcell, htc]
        · cases h
      | none =>
        rw [hcell] at h
        dsimp only at h
        rw [List.mem_cons] at h
        rcases h with rfl | h
        · refine ⟨⟨by omega, by omega, by omega, by omega⟩, ?_⟩
          simp [sameColorTarget, hcell]
        · exact ih (d + 1) mv h

lemma slideSq_inj (y x dy dx : Int) (hdir : ¬(dy = 0 ∧ dx = 0)) (d e : Nat)
    (h : ((x + (d : Int) * dx, y + (d : Int) * dy) : Int × Int) =
      (x + (e : Int) * dx, y + (e : Int) * dy)) : d = e := by
  rw [Prod.mk.injEq] at h
  obtain ⟨hx, hy⟩ := h
  have hxx : (d : Int) * dx = e * dx := by linarith
  have hyy : (d : Int) * dy = e * dy := by linarith
  by_cases hdx : dx = 0
  · have hdy : dy ≠ 0 := fun h0 => hdir ⟨h0, hdx⟩
    have hde : (d : Int) = e := mul_right_cancel₀ hdy hyy
    exact_mod_cast hde
  · have hde : (d : Int) = e := mul_right_cancel₀ hdx hxx
    exact_mod_cast hde

lemma mem_slideAux_iff (b : Board) (y x : Int) (color : String) (dy dx : Int)
    (hdir : ¬(dy = 0 ∧ dx = 0)) :
    ∀ (fuel s : Nat), 1 ≤ s → s + fuel = 8 → ∀ (d : Nat), s ≤ d → d ≤ 7 →
      ((x + (d : Int) * dx, y + (d : Int) * dy) ∈ slideAux b y x color dy dx fuel s ↔
        ((∀ e : Nat, s ≤ e → e ≤ d →
            0 ≤ x + (e : Int) * dx ∧ x + (e : Int) * dx < 8 ∧
            0 ≤ y + (e : Int) * dy ∧ y + (e : Int) * dy < 8) ∧
         (∀ e : Nat, s ≤ e → e < d → b (y + (e : Int) * dy) (x + (e : Int) * dx) = none) ∧
         (b (y + (d : Int) * dy) (x + (d : Int) * dx) = none ∨
           ∃ target, b (y + (d : Int) * dy) (x + (d : Int) * dx) = some target ∧
             target.color ≠ color))) := by
  intro fuel
  induction fuel with
  | zero =>
    intro s hs hsum d hsd hd7
    omega
  | succ fuel ih =>
    intro s hs hsum d hsd hd7
    simp only [slideAux]
    by_cases hb : (x + (s : Int) * dx < 0 ∨ 8 ≤ x + (s : Int) * dx ∨
        y + (s : Int) * dy < 0 ∨ 8 ≤ y + (s : Int) * dy)
    · rw [if_pos hb]
      simp only [List.not_mem_nil, false_iff]
      rintro ⟨hbounds, -, -⟩
      have := hbounds s le_rfl hsd
      omega
    · rw [if_neg hb]
      cases hcell : b (y + (s : Int) * dy) (x + (s : Int) * dx) with
      | some t =>
        dsimp only
        split_ifs with htc
        · by_cases hds : d = s
          · subst hds
            simp only [List.mem_singleton]
            constructor
            · intro _
              refine ⟨?_, ?_, Or.inr ⟨t, hcell, htc⟩⟩
              · intro e he1 he2
                have he : e = d := le_antisymm he2 he1
                subst he
                omega
              · intro e he1 he2
                omega
            · intro _
              trivial
          · simp only [List.mem_singleton]
            constructor
            · intro heq
              exact absurd (slideSq_inj y x dy dx hdir d s heq) hds
            · rintro ⟨-, hempties, -⟩
              have hse := hempties s le_rfl (by omega)
              rw [hcell] at hse
              cases hse
        · simp only [List.not_mem_nil, false_iff]
          by_cases hds : d = s
          · subst hds
            rintro ⟨-, -, hlast⟩
            rcases hlast with hnone | ⟨t2, ht2, htc2⟩
            · rw [hcell] at hnone
              cases hnone
            · rw [hcell] at ht2
              cases ht2
              exact htc htc2
          · rintro ⟨-, hempties, -⟩
            have hse := hempties s le_rfl (by omega)
            rw [hcell] at hse
            cases hse
      | none =>
        dsimp only
        by_cases hds : d = s
        · subst hds
          simp only [List.mem_cons]
          constructor
          · intro _
            refine ⟨?_, ?_, Or.inl hcell⟩
            · intro e he1 he2
              have he : e = d := le_antisymm he2 he1
              subst he
              omega
            · intro e he1 he2
              omega
          · intro _
            exact Or.inl trivial
        · have hlt : s < d := lt_of_le_of_ne hsd (Ne.symm hds)
          simp only [List.mem_cons]
          rw [ih (s + 1) (by omega) (by omega) d (by omega) hd7]
          constructor
          · rintro (heq | ⟨hbounds, hempt, hlast⟩)
            · exact absurd (slideSq_inj y x dy dx hdir d s heq) hds
            · refine ⟨?_, ?_, hlast⟩
              · intro e he1 he2
                rcases eq_or_lt_of_le he1 with heq | hgt
                · subst heq
                  omega
                · exact hbounds e (by omega) he2
              · intro e he1 he2
                rcases eq_or_lt_of_le he1 with heq | hgt
                · subst heq
                  exact hcell
                · exact hempt e (by omega) he2
          · rintro ⟨hbounds, hempt, hlast⟩
            right
            exact ⟨fun e he1 he2 => hbounds e (by omega) he2,
              fun e he1 he2 => hempt e (by omega) he2, hlast⟩

lemma mem_addPawnMoves_sound (b : Board) (y x : Int) (color : String)
    (hx0 : 0 ≤ x) (hx8 : x < 8) (mv : Int × Int) (h : mv ∈ addPawnMoves b y x color) :
    inBoundsPair mv ∧ sameColorTarget b color mv = false := by
  obtain ⟨p, q⟩ := mv
  rw [mem_addPawnMoves_iff] at h
  unfold pawnMoveChar at h
  dsimp only at h
  rcases h with ⟨rfl, rfl, c1, c2, hempty⟩ | ⟨rfl, rfl, -, -, -, -, c1, c2, hempty⟩ |
    ⟨hp, rfl, c1, c2, c3, c4, t, hcell, htc⟩
  · refine ⟨⟨hx0, hx8, c1, c2⟩, ?_⟩
    unfold sameColorTarget
    dsimp only
    rw [hempty]
  · refine ⟨⟨hx0, hx8, c1, c2⟩, ?_⟩
    unfold sameColorTarget
    dsimp only
    rw [hempty]
  · refine ⟨⟨c1, c2, c3, c4⟩, ?_⟩
    unfold sameColorTarget
    dsimp only
    rw [hcell]
    exact decide_eq_false htc

lemma mem_addSlidingMoves_sound (b : Board) (y x : Int) (color : String)
    (yDirs xDirs : List Int) (mv : Int × Int)
    (h : mv ∈ addSlidingMoves b y x color yDirs xDirs) :
    inBoundsPair mv ∧ sameColorTarget b color mv = false := by
  unfold addSlidingMoves at h
  rw [mem_foldr_append] at h
  obtain ⟨d, -, hmem⟩ := h
  exact mem_slideAux_sound b y x color d.1 d.2 7 1 mv hmem

lemma mem_addKnightMoves_sound (b : Board) (y x : Int) (color : String) (mv : Int × Int)
    (h : mv ∈ addKnightMoves b y x color) :
    inBoundsPair mv ∧ sameColorTarget b color mv = false := by
  unfold addKnightMoves at h
  dsimp only at h
  rw [mem_foldr_append] at h
  obtain ⟨d, -, hmem⟩ := h
  exact (mem_tryAddStep b color (y + d.1) (x + d.2) mv hmem).2

lemma mem_addKingMoves_sound (b : Board) (y x : Int) (color : String) (mv : Int × Int)
    (h : mv ∈ addKingMoves b y x color) :
    inBoundsPair mv ∧ sameColorTarget b color mv = false := by
  unfold addKingMoves at h
  rw [mem_foldr_append] at h
  obtain ⟨d, -, hmem⟩ := h
  exact (mem_tryAddStep b color (y + d.1) (x + d.2) mv hmem).2

/-- Claim C1 (code bug at the failing input): applying the white queen's
move (7,3) → (0,4) onto the black king from the initial position does set
`gameOver`, but the final `message` is the turn-switch message
"Black's turn." — the winner message written in the king-capture branch of
`applyMove` is unconditionally overwritten by the player-switch code, so
the mover is not recorded as winner in the message. -/
theorem claimC1 :
    NewGame.board 0 4 = some ⟨"black", pieces ("black_king")⟩ ∧
    (applyMove NewGame 7 3 0 4).gameOver = true ∧
    (applyMove NewGame 7 3 0 4).message = "Black\x27s turn." ∧
    (applyMove NewGame 7 3 0 4).message ≠ "Game Over! white wins." := by
  refine ⟨by decide, by decide, by decide, by decide⟩

/-- Claim C2, counterexample: in the reachable execution where the remote
line "d8e1" captures the white king (setting `gameOver`), a subsequent
remote line "a7a6" still mutates the board and toggles `currentPlayer` —
the reader goroutine applies moves without checking `gameOver`, so the
claim as stated is false. -/
theorem claimC2_counterexample :
    (runEvents NewGame [GameEvent.remoteLine (strBytes ("d8e1"))]).gameOver = true ∧
    (runEvents NewGame [GameEvent.remoteLine (strBytes ("d8e1")),
        GameEvent.remoteLine (strBytes ("a7a6"))]).board 2 0 ≠
      (runEvents NewGame [GameEvent.remoteLine (strBytes ("d8e1"))]).board 2 0 ∧
    (runEvents NewGame [GameEvent.remoteLine (strBytes ("d8e1")),
        GameEvent.remoteLine (strBytes ("a7a6"))]).currentPlayer ≠
      (runEvents NewGame [GameEvent.remoteLine (strBytes ("d8e1"))]).currentPlayer := by
  refine ⟨by decide, by decide, by decide⟩

/-- Claim C2, amended: once `gameOver` is true the local input loop accepts
no further local move events (a click leaves the state unchanged, because
`for !g.gameOver` has exited); remote moves, however, are still applied, as
the counterexample shows. -/
theorem claimC2 (g : Game) (mx my : Int) (playerColor : String) (h : g.gameOver = true) :
    step g (GameEvent.localClick mx my playerColor) = g := by
  simp [step, h]

/-- Witness for claim C2's amended theorem at a concrete game-over state. -/
theorem claimC2_witness :
    step { NewGame with gameOver := true } (GameEvent.localClick 3 3 ("white")) =
      { NewGame with gameOver := true } :=
  claimC2 { NewGame with gameOver := true } 3 3 ("white") rfl

/-- Claim C3: `parseMove` succeeds exactly on 4-byte strings whose bytes
are file 'a'..'h' (97..104) and rank '1'..'8' (49..56); a success yields
coordinates in 0..7 equal to (8 − rank, file − 'a'); every malformed string
yields (0,0,0,0) with ok = false; and the reader feeds whatever `parseMove`
returned — hence (0,0,0,0) for malformed lines — straight to `applyMove`. -/
theorem claimC3 (s : List Nat) (hbytes : ∀ b ∈ s, b < 256) :
    ((parseMove s).ok = true ↔
      ∃ m0 m1 m2 m3, s = [m0, m1, m2, m3] ∧
        97 ≤ m0 ∧ m0 ≤ 104 ∧ 49 ≤ m1 ∧ m1 ≤ 56 ∧
        97 ≤ m2 ∧ m2 ≤ 104 ∧ 49 ≤ m3 ∧ m3 ≤ 56) ∧
    ((parseMove s).ok = true →
      inBoundsPair ((parseMove s).fromCol, (parseMove s).fromRow) ∧
      inBoundsPair ((parseMove s).toCol, (parseMove s).toRow)) ∧
    ((parseMove s).ok = false → parseMove s = ⟨0, 0, 0, 0, false⟩) ∧
    (∀ m0 m1 m2 m3, s = [m0, m1, m2, m3] → (parseMove s).ok = true →
      parseMove s = ⟨8 - byteSub m1 48, byteSub m0 97, 8 - byteSub m3 48, byteSub m2 97, true⟩) ∧
    (∀ g : Game, step g (GameEvent.remoteLine s) =
      applyMove g (parseMove s).fromRow (parseMove s).fromCol
        (parseMove s).toRow (parseMove s).toCol) := by
  rcases s with _ | ⟨m0, _ | ⟨m1, _ | ⟨m2, _ | ⟨m3, _ | ⟨m4, rest⟩⟩⟩⟩⟩
  case nil =>
    refine ⟨⟨fun h => Bool.noConfusion h, ?_⟩, fun h => Bool.noConfusion h,
      fun _ => rfl, ?_, fun g => rfl⟩
    · rintro ⟨n0, n1, n2, n3, h, -⟩; simp at h
    · intro n0 n1 n2 n3 h _; simp at h
  case cons.nil =>
    refine ⟨⟨fun h => Bool.noConfusion h, ?_⟩, fun h => Bool.noConfusion h,
      fun _ => rfl, ?_, fun g => rfl⟩
    · rintro ⟨n0, n1, n2, n3, h, -⟩; simp at h
    · intro n0 n1 n2 n3 h _; simp at h
  case cons.cons.nil =>
    refine ⟨⟨fun h => Bool.noConfusion h, ?_⟩, fun h => Bool.noConfusion h,
      fun _ => rfl, ?_, fun g => rfl⟩
    · rintro ⟨n0, n1, n2, n3, h, -⟩; simp at h
    · intro n0 n1 n2 n3 h _; simp at h
  case cons.cons.cons.nil =>
    refine ⟨⟨fun h => Bool.noConfusion h, ?_⟩, fun h => Bool.noConfusion h,
      fun _ => rfl, ?_, fun g => rfl⟩
    · rintro ⟨n0, n1, n2, n3, h, -⟩; simp at h
    · intro n0 n1 n2 n3 h _; simp at h
  case cons.cons.cons.cons.cons =>
    refine ⟨⟨fun h => Bool.noConfusion h, ?_⟩, fun h => Bool.noConfusion h,
      fun _ => rfl, ?_, fun g => rfl⟩
    · rintro ⟨n0, n1, n2, n3, h, -⟩; simp at h
    · intro n0 n1 n2 n3 h _; simp at h
  case cons.cons.cons.cons.nil =>
    have h0 : m0 < 256 := hbytes m0 (by simp)
    have h1 : m1 < 256 := hbytes m1 (by simp)
    have h2 : m2 < 256 := hbytes m2 (by simp)
    have h3 : m3 < 256 := hbytes m3 (by simp)
    by_cases hC : (byteSub m0 97 < 0 ∨ 7 < byteSub m0 97 ∨
        8 - byteSub m1 48 < 0 ∨ 7 < 8 - byteSub m1 48 ∨
        byteSub m2 97 < 0 ∨ 7 < byteSub m2 97 ∨
        8 - byteSub m3 48 < 0 ∨ 7 < 8 - byteSub m3 48)
    · have hpm : parseMove [m0, m1, m2, m3] = ⟨0, 0, 0, 0, false⟩ := by
        simp only [parseMove]
        rw [if_pos hC]
      have hranges : ¬(97 ≤ m0 ∧ m0 ≤ 104 ∧ 49 ≤ m1 ∧ m1 ≤ 56 ∧
          97 ≤ m2 ∧ m2 ≤ 104 ∧ 49 ≤ m3 ∧ m3 ≤ 56) := by
        unfold byteSub at hC; omega
      refine ⟨⟨fun h => ?_, ?_⟩, fun h => ?_, fun _ => hpm, ?_, fun g => rfl⟩
      · rw [hpm] at h; exact Bool.noConfusion h
      · rintro ⟨n0, n1, n2, n3, heq, hr⟩
        obtain ⟨rfl, rfl, rfl, rfl⟩ : m0 = n0 ∧ m1 = n1 ∧ m2 = n2 ∧ m3 = n3 := by
          simpa using heq
        exact absurd hr hranges
      · rw [hpm] at h; exact Bool.noConfusion h
      · intro n0 n1 n2 n3 heq hok
        rw [hpm] at hok; exact Bool.noConfusion hok
    · have hpm : parseMove [m0, m1, m2, m3] =
          ⟨8 - byteSub m1 48, byteSub m0 97, 8 - byteSub m3 48, byteSub m2 97, true⟩ := by
        simp only [parseMove]
        rw [if_neg hC]
      have hranges : 97 ≤ m0 ∧ m0 ≤ 104 ∧ 49 ≤ m1 ∧ m1 ≤ 56 ∧
          97 ≤ m2 ∧ m2 ≤ 104 ∧ 49 ≤ m3 ∧ m3 ≤ 56 := by
        unfold byteSub at hC; omega
      refine ⟨⟨fun _ => ⟨m0, m1, m2, m3, rfl, hranges⟩, fun _ => by rw [hpm]⟩,
        fun _ => ⟨?_, ?_⟩, fun h => ?_, ?_, fun g => rfl⟩
      · rw [hpm]; unfold inBoundsPair byteSub; unfold byteSub at hC; dsimp only; omega
      · rw [hpm]; unfold inBoundsPair byteSub; unfold byteSub at hC; dsimp only; omega
      · rw [hpm] at h; exact Bool.noConfusion h
      · intro n0 n1 n2 n3 heq _
        obtain ⟨rfl, rfl, rfl, rfl⟩ : m0 = n0 ∧ m1 = n1 ∧ m2 = n2 ∧ m3 = n3 := by
          simpa using heq
        exact hpm

/-- Witness for claim C3 at the malformed line "e9e4" (rank 9 out of range). -/
theorem claimC3_witness :
    parseMove (strBytes ("e9e4")) = ⟨0, 0, 0, 0, false⟩ :=
  (claimC3 (strBytes ("e9e4")) (by decide)).2.2.1 (by decide)

/-- Claim C4: for every board, every in-range source square holding a piece
(whose color tag matches its pawn symbol, as every piece the program ever
constructs does), each destination produced by `calculateLegalMoves` is
inside the 8×8 board and is not occupied by a piece of the mover's color. -/
theorem claimC4 (b : Board) (y x : Int)
    (hy0 : 0 ≤ y) (hy8 : y < 8) (hx0 : 0 ≤ x) (hx8 : x < 8)
    (p : Piece) (hp : b y x = some p)
    (hwp : p.symbol = pieces ("white_pawn") → p.color = "white")
    (hbp : p.symbol = pieces ("black_pawn") → p.color = "black") :
    ∀ mv ∈ calculateLegalMoves b y x,
      inBoundsPair mv ∧ sameColorTarget b p.color mv = false := by
  intro mv hmv
  unfold calculateLegalMoves at hmv
  rw [hp] at hmv
  dsimp only at hmv
  split_ifs at hmv with h1 h2 h3 h4 h5 h6 h7
  · rw [hwp h1]
    exact mem_addPawnMoves_sound b y x ("white") hx0 hx8 mv hmv
  · rw [hbp h2]
    exact mem_addPawnMoves_sound b y x ("black") hx0 hx8 mv hmv
  · exact mem_addSlidingMoves_sound b y x p.color _ _ mv hmv
  · exact mem_addSlidingMoves_sound b y x p.color _ _ mv hmv
  · exact mem_addSlidingMoves_sound b y x p.color _ _ mv hmv
  · exact mem_addKnightMoves_sound b y x p.color mv hmv
  · exact mem_addKingMoves_sound b y x p.color mv hmv
  · cases hmv

/-- Witness for claim C4: the white pawn at (6,4) of the initial position
and its generated destination (col 4, row 5). -/
theorem claimC4_witness :
    inBoundsPair ((4 : Int), (5 : Int)) ∧
    sameColorTarget NewGame.board ("white") ((4 : Int), (5 : Int)) = false :=
  claimC4 NewGame.board 6 4 (by decide) (by decide) (by decide) (by decide)
    ⟨"white", pieces ("white_pawn")⟩ (by decide) (fun _ => rfl) (by decide)
    ((4 : Int), (5 : Int)) (by decide)

/-- Claim C5: a square at distance `d` along a ray is generated iff the
whole ray up to it is on the board, every strictly earlier square is empty,
and it is itself empty or enemy-occupied (the first occupied square stops
the ray, inclusively iff it holds an opposing piece); `addSlidingMoves` is
the union of its rays; and from the initial position the white rook at
(7,0) generates no destinations. -/
theorem claimC5 :
    (∀ (b : Board) (y x : Int) (color : String) (dy dx : Int), ¬(dy = 0 ∧ dx = 0) →
      ∀ d : Nat, 1 ≤ d → d ≤ 7 →
        ((x + (d : Int) * dx, y + (d : Int) * dy) ∈ slideAux b y x color dy dx 7 1 ↔
          slidingRayChar b y x color dy dx d)) ∧
    (∀ (b : Board) (y x : Int) (color : String) (yDirs xDirs : List Int) (mv : Int × Int),
      mv ∈ addSlidingMoves b y x color yDirs xDirs ↔
        ∃ dir ∈ yDirs.zip xDirs, mv ∈ slideAux b y x color dir.1 dir.2 7 1) ∧
    calculateLegalMoves NewGame.board 7 0 = [] :=
  ⟨fun b y x color dy dx hdir d h1 h7 =>
      mem_slideAux_iff b y x color dy dx hdir 7 1 le_rfl rfl d h1 h7,
   fun b y x color yDirs xDirs mv => by
      unfold addSlidingMoves
      exact mem_foldr_append _ _ _,
   by decide⟩

/-- Witness for claim C5's ray characterization: the white rook at (7,0) of
the initial position, upward direction, distance 1 — square (col 0, row 6). -/
theorem claimC5_witness :
    (((0 : Int), (6 : Int)) ∈ slideAux NewGame.board 7 0 ("white") (-1) 0 7 1 ↔
      slidingRayChar NewGame.board 7 0 ("white") (-1) 0 1) := by
  have h := claimC5.1 NewGame.board 7 0 ("white") (-1) 0 (by decide) 1 (by decide) (by decide)
  norm_num at h
  exact h

/-- Claim C6: the pawn generator produces exactly the one-step advance onto
an empty square, the double step from the starting rank with both squares
empty, and the in-range forward-diagonal captures of opposing pieces; from
the initial position the pawn at (6,4) reaches rows 5 and 4 but not row 3
(destinations are (col, row) pairs). -/
theorem claimC6 :
    (∀ (b : Board) (y x : Int) (color : String) (p q : Int),
      (p, q) ∈ addPawnMoves b y x color ↔ pawnMoveChar b y x color p q) ∧
    (((4 : Int), (5 : Int)) ∈ calculateLegalMoves NewGame.board 6 4 ∧
     ((4 : Int), (4 : Int)) ∈ calculateLegalMoves NewGame.board 6 4 ∧
     ((4 : Int), (3 : Int)) ∉ calculateLegalMoves NewGame.board 6 4) :=
  ⟨mem_addPawnMoves_iff, by decide, by decide, by decide⟩

/-- Claim C7: encoding the move (fromRow 6, fromCol 4, toRow 4, toCol 4)
produces "e2e4", and parsing "e2e4" returns (6,4,4,4) with ok = true. -/
theorem claimC7 :
    encodeMove 4 6 4 4 = "e2e4" ∧ parseMove (strBytes ("e2e4")) = ⟨6, 4, 4, 4, true⟩ := by
  constructor <;> decide

/-- Claim C8: when it is not the acting player's turn, `handleMouseClick`
sends nothing and changes nothing except the advisory message. -/
theorem claimC8 (g : Game) (playerColor : String) (h : g.currentPlayer ≠ playerColor) :
    (handleMouseClick g playerColor).2 = "" ∧
    (handleMouseClick g playerColor).1.board = g.board ∧
    (handleMouseClick g playerColor).1.currentPlayer = g.currentPlayer ∧
    (handleMouseClick g playerColor).1.gameOver = g.gameOver ∧
    (handleMouseClick g playerColor).1.selectedX = g.selectedX ∧
    (handleMouseClick g playerColor).1.selectedY = g.selectedY ∧
    (handleMouseClick g playerColor).1.legalMoves = g.legalMoves ∧
    (handleMouseClick g playerColor).1.message = "Not your turn!" := by
  simp [handleMouseClick, h]

/-- Witness for claim C8: black clicking while it is white's turn in the
initial position. -/
theorem claimC8_witness :
    (handleMouseClick NewGame ("black")).2 = "" ∧
    (handleMouseClick NewGame ("black")).1.board = NewGame.board ∧
    (handleMouseClick NewGame ("black")).1.currentPlayer = NewGame.currentPlayer ∧
    (handleMouseClick NewGame ("black")).1.gameOver = NewGame.gameOver ∧
    (handleMouseClick NewGame ("black")).1.selectedX = NewGame.selectedX ∧
    (handleMouseClick NewGame ("black")).1.selectedY = NewGame.selectedY ∧
    (handleMouseClick NewGame ("black")).1.legalMoves = NewGame.legalMoves ∧
    (handleMouseClick NewGame ("black")).1.message = "Not your turn!" :=
  claimC8 NewGame ("black") (by decide)

/-- Claim C9: `applyMove` validates nothing — a degenerate move from a
square to itself (what every malformed remote line produces at (0,0))
deletes the piece on that square (the destination is written before the
source is cleared) and still toggles `currentPlayer`; it is not a no-op. -/
theorem claimC9 (g : Game) (r c : Int) (hr0 : 0 ≤ r) (hr8 : r < 8)
    (hc0 : 0 ≤ c) (hc8 : c < 8) (p : Piece) (hp : g.board r c = some p) :
    (applyMove g r c r c).board r c = none ∧
    (applyMove g r c r c).board r c ≠ g.board r c ∧
    (applyMove g r c r c).currentPlayer =
      (if g.currentPlayer = "white" then "black" else "white") := by
  unfold applyMove
  split <;> split_ifs <;> simp_all

/-- Witness for claim C9: the black rook at (0,0) of the initial position
vanishes under `applyMove (0,0) → (0,0)`. -/
theorem claimC9_witness :
    (applyMove NewGame 0 0 0 0).board 0 0 = none ∧
    (applyMove NewGame 0 0 0 0).board 0 0 ≠ NewGame.board 0 0 ∧
    (applyMove NewGame 0 0 0 0).currentPlayer =
      (if NewGame.currentPlayer = "white" then "black" else "white") :=
  claimC9 NewGame 0 0 (by decide) (by decide) (by decide) (by decide)
    ⟨"black", pieces ("black_rook")⟩ (by decide)

set_option maxHeartbeats 2000000 in
/-- Claim C10: the wire encoding round-trips for every move — encoding any
coordinates in 0..7 with handleMouseClick's notation and parsing the result
reproduces the original coordinates with ok = true. -/
theorem claimC10 :
    ∀ (fromCol fromRow toCol toRow : Fin 8),
      parseMove (strBytes (encodeMove fromCol fromRow toCol toRow)) =
        ⟨fromRow, fromCol, toRow, toCol, true⟩ := by
  decide
